import Mathlib

/-!
Verification of the `dab` transaction engine (src/src/transaction/engine.rs,
src/src/transaction/mod.rs, src/src/main.rs).

Monetary amounts are `f64` in the source; the claims under study are about
exact bookkeeping identities, so amounts are embedded as exact rationals
(the spec explicitly disclaims numeric-precision guarantees beyond standard
floating point).  `HashMap` is embedded as an association list with
first-occurrence lookup and in-place first-occurrence update, which matches
the unique-key behaviour of the source maps.
-/

/-- Embeds `TransactionOperation` from src/src/transaction/mod.rs. -/
inductive TransactionOperation where
  | deposit (amount : ℚ)
  | withdrawal (amount : ℚ)
  | dispute
  | resolve
  | chargeback
  deriving DecidableEq, Repr

/-- Embeds `Transaction` from src/src/transaction/mod.rs.
`ClientId` (u16) and `TransactionId` (u32) are opaque identifiers used only
for equality, embedded as `Nat`. -/
structure Transaction where
  client : Nat
  id : Nat
  operation : TransactionOperation
  deriving DecidableEq, Repr

/-- Embeds `TransactionEntry` from src/src/transaction/engine.rs. -/
structure TransactionEntry where
  amount : ℚ
  disputed : Bool
  deriving DecidableEq, Repr

/-- Embeds `Account` from src/src/transaction/mod.rs. -/
@[ext]
structure Account where
  client : Nat
  available : ℚ
  held : ℚ
  total : ℚ
  locked : Bool
  deriving DecidableEq, Repr

/-- Embeds `ClientEntry` from src/src/transaction/engine.rs.  The
`transactions` HashMap is an association list with unique keys. -/
@[ext]
structure ClientEntry where
  id : Nat
  available : ℚ
  held : ℚ
  total : ℚ
  locked : Bool
  transactions : List (Nat × TransactionEntry)
  deriving DecidableEq, Repr

/-- Association-list lookup: first entry whose key equals `k`
(embeds `HashMap::get` / the occupancy test of `HashMap::entry`). -/
def alookup {α : Type} (k : Nat) : List (Nat × α) → Option α
  | [] => none
  | (k2, v) :: rest => if k2 = k then some v else alookup k rest

/-- Association-list in-place update of the first entry with key `k`
(embeds mutation through `HashMap::get_mut`). -/
def aupdate {α : Type} (k : Nat) (f : α → α) : List (Nat × α) → List (Nat × α)
  | [] => []
  | (k2, v) :: rest =>
      if k2 = k then (k2, f v) :: rest else (k2, v) :: aupdate k f rest

/-- Embeds `ClientEntry::new` (all balances default to zero). -/
def ClientEntry.new (id : Nat) : ClientEntry :=
  { id := id, available := 0, held := 0, total := 0, locked := false,
    transactions := [] }

/-- Embeds the state mutation performed by `ClientEntry::apply`
(src/src/transaction/engine.rs, lines 59–124), branch by branch. -/
def ClientEntry.apply (e : ClientEntry) (t : Transaction) : ClientEntry :=
  match t.operation with
  | .deposit amount =>
      match alookup t.id e.transactions with
      | some _ => e
      | none =>
          { e with
              available := e.available + amount
              total := e.total + amount
              transactions :=
                (t.id, { amount := amount, disputed := false })
                  :: e.transactions }
  | .withdrawal amount =>
      match alookup t.id e.transactions with
      | some _ => e
      | none =>
          let available := e.available - amount
          if 0 ≤ available then
            { e with
                available := available
                total := e.total - amount
                transactions :=
                  (t.id, { amount := amount, disputed := false })
                    :: e.transactions }
          else
            { e with
                transactions :=
                  (t.id, { amount := amount, disputed := false })
                    :: e.transactions }
  | .dispute =>
      match alookup t.id e.transactions with
      | none => e
      | some tx =>
          if tx.disputed then e
          else
            { e with
                available := e.available - tx.amount
                held := e.held + tx.amount
                transactions :=
                  aupdate t.id (fun r => { r with disputed := true })
                    e.transactions }
  | .resolve =>
      match alookup t.id e.transactions with
      | none => e
      | some tx =>
          if tx.disputed then
            { e with
                available := e.available + tx.amount
                held := e.held - tx.amount
                transactions :=
                  aupdate t.id (fun r => { r with disputed := false })
                    e.transactions }
          else e
  | .chargeback =>
      match alookup t.id e.transactions with
      | none => e
      | some tx =>
          if tx.disputed then
            { e with
                held := e.held - tx.amount
                total := e.total - tx.amount
                locked := true }
          else e

/-- Embeds `ClientEntry::as_account`. -/
def ClientEntry.asAccount (e : ClientEntry) : Account :=
  { client := e.id, available := e.available, held := e.held,
    total := e.total, locked := e.locked }

/-- Embeds `TransactionEngine` (the ledger): map from client id to entry. -/
structure TransactionEngine where
  clients : List (Nat × ClientEntry)
  deriving DecidableEq, Repr

/-- Embeds `TransactionEngine::new`. -/
def TransactionEngine.new : TransactionEngine := ⟨[]⟩

/-- Embeds `TransactionEngine::process` (src/src/transaction/engine.rs,
lines 153–164): for a Deposit the client entry is created on demand; for
every other operation a missing client yields `none` and no mutation.
Returns the optional snapshot of the touched account and the new ledger. -/
def TransactionEngine.process (g : TransactionEngine) (t : Transaction) :
    Option Account × TransactionEngine :=
  match t.operation with
  | .deposit _ =>
      match alookup t.client g.clients with
      | some e =>
          let e2 := e.apply t
          (some e2.asAccount, ⟨aupdate t.client (fun _ => e2) g.clients⟩)
      | none =>
          let e2 := (ClientEntry.new t.client).apply t
          (some e2.asAccount, ⟨(t.client, e2) :: g.clients⟩)
  | _ =>
      match alookup t.client g.clients with
      | none => (none, g)
      | some e =>
          let e2 := e.apply t
          (some e2.asAccount, ⟨aupdate t.client (fun _ => e2) g.clients⟩)

/-- Folds `process` over a transaction list (the loop body of `main`). -/
def processAll (g : TransactionEngine) : List Transaction → TransactionEngine
  | [] => g
  | t :: rest => processAll (g.process t).2 rest

/-- Embeds the ingestion loop of `main` (src/src/main.rs, lines 20–23) over
the fallible record stream produced by `input::read`: records are consumed
strictly in order and the first read/conversion error aborts the run.
Returns the ledger state reached when the loop stops together with the
propagated error, if any (`some msg` models the non-zero process exit). -/
def runAll (g : TransactionEngine) :
    List (Except String Transaction) → TransactionEngine × Option String
  | [] => (g, none)
  | .ok t :: rest => runAll (g.process t).2 rest
  | .error msg :: _ => (g, some msg)

/-! ### Predicates and concrete inputs used by the claims -/

/-- The balance identity of a single account entry. -/
def EntryInv (e : ClientEntry) : Prop := e.total = e.available + e.held

/-- A per-entry predicate holding for every account of the ledger. -/
def EngineSat (P : ClientEntry → Prop) (g : TransactionEngine) : Prop :=
  ∀ c e, alookup c g.clients = some e → P e

/-- The balance identity for every account of the ledger. -/
def EngineInv (g : TransactionEngine) : Prop := EngineSat EntryInv g

/-- Nonnegative available funds in a single account entry, together with the
auxiliary fact that no stored record is disputed. -/
def EntryNonneg (e : ClientEntry) : Prop :=
  0 ≤ e.available ∧
    ∀ i r, alookup i e.transactions = some r → r.disputed = false

/-- Nonnegative available funds for every account of the ledger. -/
def EngineAvailNonneg (g : TransactionEngine) : Prop :=
  ∀ c e, alookup c g.clients = some e → 0 ≤ e.available

/-- Transactions that are not disputes and whose deposits are nonnegative. -/
def NonnegNoDispute (t : Transaction) : Prop :=
  match t.operation with
  | .deposit a => 0 ≤ a
  | .withdrawal _ => True
  | .dispute => False
  | .resolve => True
  | .chargeback => True

/-- Concrete run for the C1 witness: one deposit of 5 by client 1. -/
def tsW1 : List Transaction := [⟨1, 1, .deposit 5⟩]

/-- The entry of client 1 after the run `tsW1`. -/
def entW1 : ClientEntry := (ClientEntry.new 1).apply ⟨1, 1, .deposit 5⟩

/-- The snapshot returned by one further deposit after the run `tsW1`. -/
def accW1 : Account := ClientEntry.asAccount (entW1.apply ⟨1, 2, .deposit 3⟩)

/-- Concrete run refuting C2: deposit 10, withdraw 10, then dispute the
withdrawal; the dispute drives `available` to -10. -/
def tsC2 : List Transaction :=
  [⟨1, 1, .deposit 10⟩, ⟨1, 2, .withdrawal 10⟩, ⟨1, 2, .dispute⟩]

/-- The entry of client 1 after the run `tsC2` (negative available funds). -/
def entC2 : ClientEntry :=
  { id := 1, available := -10, held := 10, total := 0, locked := false,
    transactions := [(2, ⟨10, true⟩), (1, ⟨10, false⟩)] }

/-- Concrete run for the C2 witness: one deposit of 5 by client 1. -/
def tsW2 : List Transaction := [⟨1, 1, .deposit 5⟩]

/-- The entry of client 1 after the run `tsW2`. -/
def entW2 : ClientEntry := (ClientEntry.new 1).apply ⟨1, 1, .deposit 5⟩

/-- Concrete run refuting C3: deposit 100, dispute it, charge it back.
The charged-back record is still marked disputed, so a later Resolve or
Chargeback on the same id mutates the account again. -/
def tsC3 : List Transaction :=
  [⟨1, 1, .deposit 100⟩, ⟨1, 1, .dispute⟩, ⟨1, 1, .chargeback⟩]

/-- The entry of client 1 holding a disputed record, for the C3 witness. -/
def entW3 : ClientEntry :=
  ((ClientEntry.new 1).apply ⟨1, 1, .deposit 5⟩).apply ⟨1, 1, .dispute⟩

/-- The entry of client 1 holding one deposit record, for the C4 witness. -/
def entW4 : ClientEntry := (ClientEntry.new 1).apply ⟨1, 1, .deposit 5⟩

/-- The entry of client 1 holding one deposit record, for the C8 witness. -/
def entW8 : ClientEntry := (ClientEntry.new 1).apply ⟨1, 1, .deposit 5⟩

/-! ### Association-list lemmas -/

theorem alookup_aupdate {α : Type} (k c : Nat) (f : α → α)
    (l : List (Nat × α)) :
    alookup c (aupdate k f l) =
      if k = c then (alookup c l).map f else alookup c l := by
  induction l with
  | nil => simp [alookup, aupdate]
  | cons hd tl ih =>
      obtain ⟨k2, v⟩ := hd
      by_cases h1 : k2 = k
      · subst h1
        by_cases h2 : k2 = c <;> simp [alookup, aupdate, h2]
      · by_cases h2 : k2 = c
        · subst h2
          simp [alookup, aupdate, h1, Ne.symm h1]
        · simp [alookup, aupdate, h1, h2, ih]

theorem aupdate_aupdate {α : Type} (k : Nat) (f g : α → α)
    (l : List (Nat × α)) :
    aupdate k f (aupdate k g l) = aupdate k (fun x => f (g x)) l := by
  induction l with
  | nil => rfl
  | cons hd tl ih =>
      obtain ⟨k2, v⟩ := hd
      by_cases h : k2 = k <;> simp [aupdate, h, ih]

theorem aupdate_eq_self {α : Type} (k : Nat) (f : α → α)
    (l : List (Nat × α)) (r : α)
    (h1 : alookup k l = some r) (h2 : f r = r) : aupdate k f l = l := by
  induction l with
  | nil => simp [alookup] at h1
  | cons hd tl ih =>
      obtain ⟨k2, v⟩ := hd
      by_cases h : k2 = k
      · simp [alookup, h] at h1
        subst h1
        simp [aupdate, h, h2]
      · simp [alookup, h] at h1
        simp [aupdate, h, ih h1]

/-! ### Generic preservation lemmas for per-entry ledger predicates -/

theorem engineSat_process (P : ClientEntry → Prop) (g : TransactionEngine)
    (t : Transaction) (hg : EngineSat P g)
    (happly : ∀ e, P e → P (e.apply t))
    (hnew : P ((ClientEntry.new t.client).apply t)) :
    EngineSat P (g.process t).2 := by
  obtain ⟨c, i, op⟩ := t
  have step :
      ∀ (e : ClientEntry), P e →
        EngineSat P ⟨aupdate c (fun _ => e) g.clients⟩ := by
    intro e he c2 e2 h2
    simp only [alookup_aupdate] at h2
    by_cases hc : c = c2
    · subst hc
      rw [if_pos rfl] at h2
      rcases Option.map_eq_some'.mp h2 with ⟨e3, h3, h4⟩
      have h5 : e = e2 := h4
      exact h5 ▸ he
    · rw [if_neg hc] at h2
      exact hg c2 e2 h2
  cases op <;> simp only [TransactionEngine.process] <;> split
  case deposit.h_1 a e heq =>
    exact step _ (happly _ (hg _ _ heq))
  case deposit.h_2 a heq =>
    intro c2 e2 h2
    simp only [alookup] at h2
    split at h2
    · cases h2
      exact hnew
    · exact hg c2 e2 h2
  all_goals first
    | exact hg
    | (rename_i e heq; exact step _ (happly _ (hg _ _ heq)))

theorem engineSat_process_fst (P : ClientEntry → Prop) (g : TransactionEngine)
    (t : Transaction) (hg : EngineSat P g)
    (happly : ∀ e, P e → P (e.apply t))
    (hnew : P ((ClientEntry.new t.client).apply t))
    (a : Account) (h : (g.process t).1 = some a) :
    ∃ e, P e ∧ a = ClientEntry.asAccount e := by
  obtain ⟨c, i, op⟩ := t
  cases op <;> simp only [TransactionEngine.process] at h <;> split at h
  case deposit.h_1 a2 e heq =>
    cases h
    exact ⟨_, happly _ (hg _ _ heq), rfl⟩
  case deposit.h_2 a2 heq =>
    cases h
    exact ⟨_, hnew, rfl⟩
  all_goals first
    | (rename_i e heq
       cases h
       exact ⟨_, happly _ (hg _ _ heq), rfl⟩)
    | cases h

theorem engineSat_processAll (P : ClientEntry → Prop) (g : TransactionEngine)
    (ts : List Transaction) (hg : EngineSat P g)
    (happly : ∀ t ∈ ts, ∀ e, P e → P (e.apply t))
    (hnew : ∀ t ∈ ts, P ((ClientEntry.new t.client).apply t)) :
    EngineSat P (processAll g ts) := by
  induction ts generalizing g with
  | nil => exact hg
  | cons t rest ih =>
      exact ih _
        (engineSat_process P g t hg
          (happly t (List.mem_cons_self t rest)) (hnew t (List.mem_cons_self t rest)))
        (fun t2 h2 => happly t2 (List.mem_cons_of_mem _ h2))
        (fun t2 h2 => hnew t2 (List.mem_cons_of_mem _ h2))

/-! ### The bookkeeping invariant total = available + held -/

theorem entryInv_new (c : Nat) : EntryInv (ClientEntry.new c) := by
  simp [EntryInv, ClientEntry.new]

theorem entryInv_apply (e : ClientEntry) (t : Transaction)
    (h : EntryInv e) : EntryInv (e.apply t) := by
  obtain ⟨c, i, op⟩ := t
  cases op <;>
    simp only [ClientEntry.apply] <;>
    (try split) <;> (try split) <;>
    simp_all [EntryInv] <;> ring

theorem engineInv_new : EngineInv TransactionEngine.new := by
  intro c e h
  simp [TransactionEngine.new, alookup] at h

/-! ### Nonnegative available funds -/

theorem entryNonneg_new (c : Nat) : EntryNonneg (ClientEntry.new c) := by
  constructor
  · simp [ClientEntry.new]
  · intro i r hr
    simp [ClientEntry.new, alookup] at hr

theorem entryNonneg_apply (e : ClientEntry) (t : Transaction)
    (ht : NonnegNoDispute t) (he : EntryNonneg e) :
    EntryNonneg (e.apply t) := by
  obtain ⟨c, i, op⟩ := t
  cases op
  case deposit a =>
    simp only [NonnegNoDispute] at ht
    simp only [ClientEntry.apply]
    split
    · exact he
    · refine ⟨add_nonneg he.1 ht, ?_⟩
      intro i2 r hr
      simp only [alookup] at hr
      split at hr
      · cases hr
        rfl
      · exact he.2 _ _ hr
  case withdrawal a =>
    simp only [ClientEntry.apply]
    split
    · exact he
    · split
      · next hguard =>
          refine ⟨hguard, ?_⟩
          intro i2 r hr
          simp only [alookup] at hr
          split at hr
          · cases hr
            rfl
          · exact he.2 _ _ hr
      · refine ⟨he.1, ?_⟩
        intro i2 r hr
        simp only [alookup] at hr
        split at hr
        · cases hr
          rfl
        · exact he.2 _ _ hr
  case dispute =>
    exact ht.elim
  case resolve =>
    simp only [ClientEntry.apply]
    split
    · exact he
    · next tx heq =>
        rw [he.2 _ _ heq]
        simp only [Bool.false_eq_true, if_false]
        exact he
  case chargeback =>
    simp only [ClientEntry.apply]
    split
    · exact he
    · next tx heq =>
        rw [he.2 _ _ heq]
        simp only [Bool.false_eq_true, if_false]
        exact he

theorem engineNonneg_new : EngineSat EntryNonneg TransactionEngine.new := by
  intro c e h
  simp [TransactionEngine.new, alookup] at h

/-! ### Claim C1 -/

/-- C1: for every account at every observable point (in the ledger after any
sequence of process calls, hence in every snapshot drained by `accounts`, and
in the snapshot returned by any further process call), the equality
total = available + held holds. -/
theorem c1_total_eq_available_add_held (ts : List Transaction) :
    EngineInv (processAll TransactionEngine.new ts) ∧
    ∀ (t : Transaction) (a : Account),
      ((processAll TransactionEngine.new ts).process t).1 = some a →
      a.total = a.available + a.held := by
  have hsat : EngineSat EntryInv (processAll TransactionEngine.new ts) :=
    engineSat_processAll _ _ _ engineInv_new
      (fun t _ e he => entryInv_apply e t he)
      (fun t _ => entryInv_apply _ _ (entryInv_new _))
  refine ⟨hsat, ?_⟩
  intro t a h
  obtain ⟨e, he, rfl⟩ := engineSat_process_fst EntryInv _ t hsat
    (fun e he => entryInv_apply e t he)
    (entryInv_apply _ _ (entryInv_new _)) a h
  exact he

/-- Witness for C1 at the concrete run `tsW1`. -/
theorem c1_witness :
    EntryInv entW1 ∧ accW1.total = accW1.available + accW1.held :=
  ⟨(c1_total_eq_available_add_held tsW1).1 1 entW1 rfl,
   (c1_total_eq_available_add_held tsW1).2 ⟨1, 2, .deposit 3⟩ accW1 rfl⟩

/-! ### Claim C2 -/

/-- C2 counterexample: the claim that available stays nonnegative over every
transaction sequence is false; in the run `tsC2` (deposit 10, withdraw 10,
dispute the withdrawal) the dispute drives available of client 1 to -10.
A negative deposit, e.g. Deposit(-5), violates it as well. -/
theorem c2_counterexample :
    ¬ (∀ ts : List Transaction,
        EngineAvailNonneg (processAll TransactionEngine.new ts)) := by
  intro h
  have h2 := h tsC2 1 entC2 (by
    norm_num [tsC2, entC2, processAll, TransactionEngine.process,
      TransactionEngine.new, ClientEntry.apply, ClientEntry.new,
      alookup, aupdate])
  norm_num [entC2] at h2

/-- C2 amended: available stays nonnegative at every observable point for
every sequence of transactions that contains no Dispute and in which every
Deposit carries a nonnegative amount (a Dispute, or a negative Deposit, can
drive available below zero). -/
theorem c2_available_nonneg (ts : List Transaction)
    (h : ∀ t ∈ ts, NonnegNoDispute t) :
    EngineAvailNonneg (processAll TransactionEngine.new ts) ∧
    ∀ (t : Transaction) (a : Account), NonnegNoDispute t →
      ((processAll TransactionEngine.new ts).process t).1 = some a →
      0 ≤ a.available := by
  have hsat : EngineSat EntryNonneg (processAll TransactionEngine.new ts) :=
    engineSat_processAll _ _ _ engineNonneg_new
      (fun t hmem e he => entryNonneg_apply e t (h t hmem) he)
      (fun t hmem => entryNonneg_apply _ _ (h t hmem) (entryNonneg_new _))
  refine ⟨fun c e h2 => (hsat c e h2).1, ?_⟩
  intro t a ht h2
  obtain ⟨e, he, rfl⟩ := engineSat_process_fst EntryNonneg _ t hsat
    (fun e he => entryNonneg_apply e t ht he)
    (entryNonneg_apply _ _ ht (entryNonneg_new _)) a h2
  exact he.1

/-- Witness for the amended C2 at the concrete run `tsW2`. -/
theorem c2_witness :
    (∀ t ∈ tsW2, NonnegNoDispute t) ∧ 0 ≤ entW2.available := by
  have hyp : ∀ t ∈ tsW2, NonnegNoDispute t := by
    simp [tsW2, NonnegNoDispute]
  exact ⟨hyp, (c2_available_nonneg tsW2 hyp).1 1 entW2 rfl⟩

/-! ### Claim C3 -/

/-- C3 counterexample: charged-back is not terminal.  After the run `tsC3`
(deposit 100, dispute it, charge it back) available is 0; a later Resolve of
the same transaction id raises available to 100, and a later Chargeback of
the same id debits total again to -100, so neither is a no-op. -/
theorem c3_counterexample :
    (alookup 1 (processAll TransactionEngine.new tsC3).clients).map
        ClientEntry.available = some 0 ∧
    (alookup 1 (((processAll TransactionEngine.new tsC3).process
        ⟨1, 1, .resolve⟩).2).clients).map ClientEntry.available = some 100 ∧
    (alookup 1 (((processAll TransactionEngine.new tsC3).process
        ⟨1, 1, .chargeback⟩).2).clients).map ClientEntry.total =
      some (-100) := by
  refine ⟨?_, ?_, ?_⟩ <;>
    norm_num [tsC3, processAll, TransactionEngine.process,
      TransactionEngine.new, ClientEntry.apply, ClientEntry.new,
      alookup, aupdate]

/-- C3 amended: after a Chargeback is applied to a disputed record, the
record stays marked disputed, so every later Dispute referencing that id is
a no-op that changes no account field and no record field; however a later
Resolve reverses the dispute financials and clears the flag, and a later
Chargeback debits held and total again. -/
theorem c3_chargeback_then_dispute_noop (e : ClientEntry) (c c2 i : Nat)
    (r : TransactionEntry) (h1 : alookup i e.transactions = some r)
    (h2 : r.disputed = true) :
    (e.apply ⟨c, i, .chargeback⟩).apply ⟨c2, i, .dispute⟩ =
      e.apply ⟨c, i, .chargeback⟩ := by
  simp [ClientEntry.apply, h1, h2]

/-- Witness for the amended C3 at a concrete disputed entry. -/
theorem c3_witness :
    (entW3.apply ⟨1, 1, .chargeback⟩).apply ⟨1, 1, .dispute⟩ =
      entW3.apply ⟨1, 1, .chargeback⟩ :=
  c3_chargeback_then_dispute_noop entW3 1 1 1 ⟨5, true⟩ rfl rfl

/-! ### Claim C4 -/

/-- C4: replaying a deposit or a withdrawal whose transaction id is already
recorded leaves the whole entry (balances, locked flag and records)
unchanged. -/
theorem c4_replay_noop (e : ClientEntry) (c i : Nat) (a : ℚ)
    (r : TransactionEntry) (h : alookup i e.transactions = some r) :
    e.apply ⟨c, i, .deposit a⟩ = e ∧ e.apply ⟨c, i, .withdrawal a⟩ = e := by
  constructor <;> simp [ClientEntry.apply, h]

/-- Witness for C4 at a concrete entry holding record id 1. -/
theorem c4_witness :
    entW4.apply ⟨1, 1, .deposit 7⟩ = entW4 ∧
    entW4.apply ⟨1, 1, .withdrawal 7⟩ = entW4 :=
  c4_replay_noop entW4 1 1 7 ⟨5, false⟩ rfl

/-! ### Claim C5 -/

/-- C5: process returns a snapshot for every Deposit, creating the account
first if absent; for every other operation kind whose client has no entry
it returns none and leaves the ledger entirely unchanged. -/
theorem c5_account_creation_policy :
    (∀ (g : TransactionEngine) (c i : Nat) (a : ℚ),
        ((g.process ⟨c, i, .deposit a⟩).1).isSome = true ∧
        (alookup c ((g.process ⟨c, i, .deposit a⟩).2).clients).isSome =
          true) ∧
    (∀ (g : TransactionEngine) (t : Transaction),
        (∀ a, t.operation ≠ .deposit a) →
        alookup t.client g.clients = none →
        g.process t = (none, g)) := by
  constructor
  · intro g c i a
    simp only [TransactionEngine.process]
    cases h : alookup c g.clients with
    | some e => simp [h, alookup_aupdate]
    | none => simp [h, alookup]
  · intro g t hop hnone
    obtain ⟨c, i, op⟩ := t
    cases op
    case deposit a => exact absurd rfl (hop a)
    all_goals simp_all [TransactionEngine.process]

/-- Witness for C5: a deposit on the empty ledger returns a snapshot, while
a dispute for the unknown client 7 returns none and leaves it unchanged. -/
theorem c5_witness :
    ((TransactionEngine.new.process ⟨7, 3, .deposit 2⟩).1).isSome = true ∧
    TransactionEngine.new.process ⟨7, 3, .dispute⟩ =
      (none, TransactionEngine.new) :=
  ⟨(c5_account_creation_policy.1 TransactionEngine.new 7 3 2).1,
   c5_account_creation_policy.2 TransactionEngine.new ⟨7, 3, .dispute⟩
     (fun _ h => TransactionOperation.noConfusion h) rfl⟩

/-! ### Claim C6 -/

/-- C6: a Withdrawal with a fresh transaction id and insufficient available
funds is silently rejected: available, held, total and locked keep their
prior values. -/
theorem c6_insufficient_funds_frame (e : ClientEntry) (c i : Nat) (a : ℚ)
    (h1 : alookup i e.transactions = none) (h2 : e.available - a < 0) :
    (e.apply ⟨c, i, .withdrawal a⟩).available = e.available ∧
    (e.apply ⟨c, i, .withdrawal a⟩).held = e.held ∧
    (e.apply ⟨c, i, .withdrawal a⟩).total = e.total ∧
    (e.apply ⟨c, i, .withdrawal a⟩).locked = e.locked := by
  have hneg : ¬ (0 ≤ e.available - a) := not_le.mpr h2
  simp [ClientEntry.apply, h1, hneg]

/-- Witness for C6: withdrawing 5 from a fresh account with 0 available. -/
theorem c6_witness :
    ((ClientEntry.new 1).apply ⟨1, 1, .withdrawal 5⟩).available =
      (ClientEntry.new 1).available ∧
    ((ClientEntry.new 1).apply ⟨1, 1, .withdrawal 5⟩).held =
      (ClientEntry.new 1).held ∧
    ((ClientEntry.new 1).apply ⟨1, 1, .withdrawal 5⟩).total =
      (ClientEntry.new 1).total ∧
    ((ClientEntry.new 1).apply ⟨1, 1, .withdrawal 5⟩).locked =
      (ClientEntry.new 1).locked :=
  c6_insufficient_funds_frame (ClientEntry.new 1) 1 1 5 rfl
    (by simp [ClientEntry.new])

/-! ### Claim C7 -/

/-- C7: a withdrawal rejected for insufficient funds still stores a record
under its transaction id, with the rejected amount and disputed = false; a
later deposit or withdrawal reusing that id is a no-op on the entry, and a
later Dispute of that id fires against the rejected amount (moving it from
available to held and marking the record disputed). -/
theorem c7_rejected_withdrawal_occupies_id (e : ClientEntry)
    (c c2 c3 i : Nat) (a b : ℚ)
    (h1 : alookup i e.transactions = none) (h2 : e.available - a < 0) :
    alookup i (e.apply ⟨c, i, .withdrawal a⟩).transactions =
      some ⟨a, false⟩ ∧
    (e.apply ⟨c, i, .withdrawal a⟩).apply ⟨c2, i, .deposit b⟩ =
      e.apply ⟨c, i, .withdrawal a⟩ ∧
    (e.apply ⟨c, i, .withdrawal a⟩).apply ⟨c2, i, .withdrawal b⟩ =
      e.apply ⟨c, i, .withdrawal a⟩ ∧
    ((e.apply ⟨c, i, .withdrawal a⟩).apply ⟨c3, i, .dispute⟩).available =
      (e.apply ⟨c, i, .withdrawal a⟩).available - a ∧
    ((e.apply ⟨c, i, .withdrawal a⟩).apply ⟨c3, i, .dispute⟩).held =
      (e.apply ⟨c, i, .withdrawal a⟩).held + a ∧
    alookup i
        ((e.apply ⟨c, i, .withdrawal a⟩).apply
          ⟨c3, i, .dispute⟩).transactions = some ⟨a, true⟩ := by
  have hneg : ¬ (0 ≤ e.available - a) := not_le.mpr h2
  have hrec : e.apply ⟨c, i, .withdrawal a⟩ =
      { e with transactions := (i, ⟨a, false⟩) :: e.transactions } := by
    simp [ClientEntry.apply, h1, hneg]
  rw [hrec]
  refine ⟨by simp [alookup], ?_, ?_, ?_, ?_, ?_⟩ <;>
    simp [ClientEntry.apply, alookup, aupdate]

/-- Witness for C7: withdrawing 5 from a fresh account with 0 available. -/
theorem c7_witness :
    alookup 1
        ((ClientEntry.new 1).apply ⟨1, 1, .withdrawal 5⟩).transactions =
      some ⟨5, false⟩ ∧
    ((ClientEntry.new 1).apply ⟨1, 1, .withdrawal 5⟩).apply
        ⟨1, 1, .deposit 3⟩ =
      (ClientEntry.new 1).apply ⟨1, 1, .withdrawal 5⟩ ∧
    ((ClientEntry.new 1).apply ⟨1, 1, .withdrawal 5⟩).apply
        ⟨1, 1, .withdrawal 3⟩ =
      (ClientEntry.new 1).apply ⟨1, 1, .withdrawal 5⟩ ∧
    (((ClientEntry.new 1).apply ⟨1, 1, .withdrawal 5⟩).apply
        ⟨1, 1, .dispute⟩).available =
      ((ClientEntry.new 1).apply ⟨1, 1, .withdrawal 5⟩).available - 5 ∧
    (((ClientEntry.new 1).apply ⟨1, 1, .withdrawal 5⟩).apply
        ⟨1, 1, .dispute⟩).held =
      ((ClientEntry.new 1).apply ⟨1, 1, .withdrawal 5⟩).held + 5 ∧
    alookup 1
        (((ClientEntry.new 1).apply ⟨1, 1, .withdrawal 5⟩).apply
          ⟨1, 1, .dispute⟩).transactions = some ⟨5, true⟩ :=
  c7_rejected_withdrawal_occupies_id (ClientEntry.new 1) 1 1 1 1 5 3 rfl
    (by simp [ClientEntry.new])

/-! ### Claim C8 -/

/-- C8: for a recorded, not-currently-disputed transaction, applying Dispute
and then Resolve on the same id restores the entire entry (available, held,
total, locked and the disputed flag of the record) to its prior state. -/
theorem c8_dispute_resolve_roundtrip (e : ClientEntry) (c c2 i : Nat)
    (r : TransactionEntry) (h1 : alookup i e.transactions = some r)
    (h2 : r.disputed = false) :
    (e.apply ⟨c, i, .dispute⟩).apply ⟨c2, i, .resolve⟩ = e := by
  have hd : e.apply ⟨c, i, .dispute⟩ =
      { e with
          available := e.available - r.amount
          held := e.held + r.amount
          transactions :=
            aupdate i (fun x => { x with disputed := true })
              e.transactions } := by
    simp [ClientEntry.apply, h1, h2]
  rw [hd]
  have hl : alookup i
      (aupdate i (fun x => { x with disputed := true }) e.transactions) =
      some { r with disputed := true } := by
    rw [alookup_aupdate]
    simp [h1]
  have ht : aupdate i (fun x => { x with disputed := false })
      (aupdate i (fun x => { x with disputed := true }) e.transactions) =
      e.transactions := by
    rw [aupdate_aupdate]
    refine aupdate_eq_self i _ _ r h1 ?_
    cases r
    simp_all
  simp only [ClientEntry.apply, hl, if_true]
  ext <;> simp [ht]

/-- Witness for C8 at a concrete entry holding an undisputed record. -/
theorem c8_witness :
    (entW8.apply ⟨1, 1, .dispute⟩).apply ⟨1, 1, .resolve⟩ = entW8 :=
  c8_dispute_resolve_roundtrip entW8 1 1 1 ⟨5, false⟩ rfl rfl

/-! ### Claim C9 -/

/-- C9: the run consumes the record stream strictly in order and stops at
the first read or conversion failure, propagating that error: exactly the
transactions before the first failing record are applied to the ledger and
the run reports that error (non-zero exit), while a stream in which every
record converts is applied in full and the run succeeds. -/
theorem c9_strict_order_first_error :
    (∀ (g : TransactionEngine) (pre : List Transaction) (msg : String)
        (rest : List (Except String Transaction)),
        runAll g (pre.map Except.ok ++ Except.error msg :: rest) =
          (processAll g pre, some msg)) ∧
    (∀ (g : TransactionEngine) (ts : List Transaction),
        runAll g (ts.map Except.ok) = (processAll g ts, none)) := by
  constructor
  · intro g pre msg rest
    induction pre generalizing g with
    | nil => rfl
    | cons t rest2 ih => simpa [runAll, processAll] using ih _
  · intro g ts
    induction ts generalizing g with
    | nil => rfl
    | cons t rest ih => simpa [runAll, processAll] using ih _

/-! ### Claim C10 -/

/-- C10: the locked flag gates nothing.  Applying any transaction to an
entry behaves identically whatever the value of locked: the resulting
available, held, total, records and client id do not depend on it, so
locking never blocks any subsequent operation. -/
theorem c10_locked_not_gated (e : ClientEntry) (t : Transaction)
    (b1 b2 : Bool) :
    (ClientEntry.apply { e with locked := b1 } t).available =
      (ClientEntry.apply { e with locked := b2 } t).available ∧
    (ClientEntry.apply { e with locked := b1 } t).held =
      (ClientEntry.apply { e with locked := b2 } t).held ∧
    (ClientEntry.apply { e with locked := b1 } t).total =
      (ClientEntry.apply { e with locked := b2 } t).total ∧
    (ClientEntry.apply { e with locked := b1 } t).transactions =
      (ClientEntry.apply { e with locked := b2 } t).transactions ∧
    (ClientEntry.apply { e with locked := b1 } t).id =
      (ClientEntry.apply { e with locked := b2 } t).id := by
  obtain ⟨c, i, op⟩ := t
  cases op <;>
    simp only [ClientEntry.apply] <;>
    cases h : alookup i e.transactions <;>
    simp only [h] <;>
    (try split_ifs) <;>
    simp_all
